import Mathlib

/-!
Shallow embedding of the core of `src/main.rs` (quickswitch-i3):
a tokenizer for the picker invocation string (`split_exec_args`),
the scene-graph flattener and filter (`flatten_nodes`, `filter_node`,
`get_windows_names`), the entity model (`Window`, `Workspace`,
`Selectable::to_select_string`), the label builder (`Window::pad_format`,
`max_class_name_size`), the picker driver's error handling (`exec_dmenu`),
and the dispatcher logic of `main`.

Conventions: Rust `i32` window ids are modelled as `Int` (no arithmetic is
performed on them); Rust string lengths are modelled as character counts
(all strings in the claims are ASCII, where byte and character counts
coincide); a Rust `panic!`/`unwrap` failure is modelled by an `Option`
result being `none`.
-/

namespace Quickswitch

/-- `static IGNORE_WINDOW_NAME: [&str; 1] = ["__i3_scratch"]`. -/
def IGNORE_WINDOW_NAME : List String := ["__i3_scratch"]

/-- `static IGNORE_WINDOW_CLASS: [&str; 1] = ["i3bar"]`. -/
def IGNORE_WINDOW_CLASS : List String := ["i3bar"]

/-- `struct Window { id: i32, name: String, class_name: Option<String> }`. -/
structure Window where
  id : Int
  name : String
  class_name : Option String
deriving Repr, DecidableEq

/-- `struct Workspace { name: String }`. -/
structure Workspace where
  name : String
deriving Repr, DecidableEq

/-- The state-passing loop body of `split_exec_args`: the Rust
`while let Some(ch) = iter.next()` loop over the characters of the command,
with the mutable state `args` (tokens pushed so far), `buf` (accumulation
buffer), `skip` (set by a backslash, skips the next character entirely) and
`matching` (the currently open quote character, if any).  Note that when the
input is exhausted the current `buf` is dropped, not flushed. -/
def splitLoop : List Char → List String → String → Bool → Option Char → List String
  | [], args, _, _, _ => args
  | ch :: rest, args, buf, skip, matching =>
    if skip then
      splitLoop rest args buf false matching
    else
      match matching with
      | some mc =>
        if ch = '"' ∨ ch = '\'' then
          if mc = ch then
            splitLoop rest (args ++ [buf]) "" false none
          else
            splitLoop rest args (buf.push ch) false (some mc)
        else
          splitLoop rest args (buf.push ch) false (some mc)
      | none =>
        if ch = ' ' then
          splitLoop rest (args ++ [buf]) "" false none
        else if ch = '"' ∨ ch = '\'' then
          splitLoop rest args buf false (some ch)
        else if ch = '\\' then
          splitLoop rest args buf true none
        else
          splitLoop rest args (buf.push ch) false none

/-- `fn split_exec_args(command: &str) -> (String, Vec<String>)`.
After the loop, `let program = args.remove(0)` panics when no token was
ever pushed; this panic is modelled by the result `none`. -/
def split_exec_args (command : String) : Option (String × List String) :=
  match splitLoop command.data [] "" false none with
  | [] => none
  | program :: args => some (program, args)

/-- The relevant fields of `i3ipc::reply::Node`: the window id (`window`),
the `name`, the `class_name`, and the child list `nodes` that
`flatten_nodes` recurses on. -/
inductive Node : Type where
  | mk : Option Int → Option String → Option String → List Node → Node

/-- Field accessor for `node.window`. -/
def Node.window : Node → Option Int
  | .mk w _ _ _ => w

/-- Field accessor for `node.name`. -/
def Node.name : Node → Option String
  | .mk _ n _ _ => n

/-- Field accessor for `node.class_name`. -/
def Node.class_name : Node → Option String
  | .mk _ _ c _ => c

/-- Field accessor for `node.nodes` (the child list). -/
def Node.nodes : Node → List Node
  | .mk _ _ _ ns => ns

mutual

/-- The body of the `flat_map` closure in `flatten_nodes`: a node with a
non-empty child list is expanded into the flattened list of its
descendants, a childless node is emitted itself. -/
def flattenOne : Node → List Node
  | .mk w n c ns => if ns.isEmpty then [.mk w n c ns] else flatten_nodes ns

/-- `fn flatten_nodes(nodes: &[reply::Node]) -> Vec<&reply::Node>`:
`nodes.into_iter().flat_map(...).collect()`. -/
def flatten_nodes : List Node → List Node
  | [] => []
  | n :: rest => flattenOne n ++ flatten_nodes rest

end

/-- `fn filter_node(node: &reply::Node) -> bool`. -/
def filter_node (node : Node) : Bool :=
  node.window.isSome &&
  (match node.name with
   | some name => !(IGNORE_WINDOW_NAME.contains name)
   | none => false) &&
  (match node.class_name with
   | some name => !(IGNORE_WINDOW_CLASS.contains name)
   | none => true)

/-- The body of the `flat_map` closure in `get_windows_names`: a node with
a name is projected to a one-element window list (`m.window.unwrap()`
panics — result `none` — if the node carries no window id), a nameless
node contributes nothing. -/
def windows_of_node (m : Node) : Option (List Window)
  := match m.name with
  | some name =>
    match m.window with
    | some w => some [{ id := w, name := name, class_name := m.class_name }]
    | none => none
  | none => some []

/-- The `flat_map`/`collect` over the filtered nodes in
`get_windows_names`: concatenation of the per-node window lists, with a
panic (`none`) propagated. -/
def collect_windows : List Node → Option (List Window)
  | [] => some []
  | n :: rest =>
    match windows_of_node n, collect_windows rest with
    | some ws, some rest' => some (ws ++ rest')
    | _, _ => none

/-- `fn get_windows_names(conn) -> Vec<Window>`, from the point where the
IPC query has delivered the root child list `nodes`:
`flatten_nodes(&nodes).into_iter().filter(filter_node).flat_map(...)`. -/
def get_windows_names (nodes : List Node) : Option (List Window) :=
  collect_windows ((flatten_nodes nodes).filter filter_node)

/-- `impl Selectable for Window`: `format!("[id=\"{}\"]", self.id)`. -/
def Window.to_select_string (w : Window) : String :=
  "[id=\"" ++ toString w.id ++ "\"]"

/-- `impl Selectable for Workspace`: `self.name.to_owned()`. -/
def Workspace.to_select_string (w : Workspace) : String :=
  w.name

/-- A `Box<Selectable>` value: the closed set of types implementing the
`Selectable` trait in this program is `{Window, Workspace}`. -/
inductive Entity : Type where
  | window : Window → Entity
  | workspace : Workspace → Entity
deriving Repr, DecidableEq

/-- Dynamic dispatch of `to_select_string` on a boxed `Selectable`. -/
def Entity.to_select_string : Entity → String
  | .window w => w.to_select_string
  | .workspace w => w.to_select_string

/-- A run of spaces, as produced by Rust's format-width padding. -/
def spaces (n : Nat) : String :=
  String.mk (List.replicate n ' ')

/-- `Window::pad_format`: `format!("{class: <0$}{name}", padding, ...)` —
the class name (or `""` if absent) left-justified to a minimum width of
`padding` characters, directly followed by the window name.  Rust's `<`
width is a minimum: nothing is truncated, and `Nat` subtraction makes the
pad empty when the class name is already at least `padding` wide. -/
def Window.pad_format (w : Window) (padding : Nat) : String :=
  let cls := w.class_name.getD ""
  cls ++ spaces (padding - cls.length) ++ w.name

/-- The mapped quantity in `max_class_name_size`:
`w.class_name.as_ref().map_or(0, |s| s.len())`. -/
def class_len (w : Window) : Nat :=
  (w.class_name.map String.length).getD 0

/-- `fn max_class_name_size(windows: &[Window]) -> usize`:
`windows.iter().map(|w| w.class_name.as_ref().map_or(0, |s| s.len())).max().unwrap()`.
The `.max()` of an empty iterator is `None`, so `.unwrap()` panics on an
empty slice; the panic is modelled by `none`. -/
def max_class_name_size (windows : List Window) : Option Nat :=
  (windows.map class_len).max?

/-- The workspace branch of `main`: `mapping.insert(w.name, Box::new(Workspace ...))`
for each queried workspace, in order.  The `HashMap` is modelled as an
association list keyed by the label. -/
def workspace_mode_mapping (wss : List Workspace) : List (String × Entity) :=
  wss.map (fun w => (w.name, Entity.workspace w))

/-- The move branch of `main`:
`let max_cname_size = max_class_name_size(&windows) + 5;` followed by
`mapping.insert(w.pad_format(max_cname_size), Box::new(w))` for each
window.  The panic of `max_class_name_size` on an empty window list
propagates as `none`. -/
def move_mode_mapping (windows : List Window) : Option (List (String × Entity)) :=
  (max_class_name_size windows).map (fun mx =>
    windows.map (fun w => (w.pad_format (mx + 5), Entity.window w)))

/-- `mapping.get(label)` on the association-list model of the `HashMap`. -/
def mapping_get (mapping : List (String × Entity)) (label : String) : Option Entity :=
  (mapping.find? (fun p => p.1 = label)).map Prod.snd

/-- The newline-joined picker input built in `main`:
`mapping.keys().map(...).collect::<Vec<_>>().join("\n")`. -/
def picker_options (mapping : List (String × Entity)) : String :=
  String.intercalate "\n" (mapping.map Prod.fst)

/-- The move-mode pipeline of `main` up to the picker launch: build the
mapping (panicking on an empty window list) and the options string that
would be written to the picker.  `none` means the run aborted before
`exec_dmenu` was called. -/
def move_mode_options (windows : List Window) : Option String :=
  (move_mode_mapping windows).map picker_options

/-- Rust's `str::trim`: whitespace stripped from both ends.  (Embedded
directly rather than through `String.trim`, whose well-founded recursion
blocks kernel evaluation; on the ASCII whitespace of the claims the two
agree.) -/
def rust_trim (s : String) : String :=
  String.mk (((s.data.dropWhile Char.isWhitespace).reverse.dropWhile
    Char.isWhitespace).reverse)

/-- The workspace-mode dispatcher (`main`, after `exec_dmenu` returned
`str_result`): trim the picker output, look the label up, fall back to the
trimmed raw text, and issue `workspace <selector>`.  The returned string is
the argument of `connection.command`. -/
def dispatch_workspace (mapping : List (String × Entity)) (str_result : String) : String :=
  let trimmed := rust_trim str_result
  let res := match mapping_get mapping trimmed with
    | some win => win.to_select_string
    | none => trimmed
  "workspace " ++ res

/-- The move-mode dispatcher (`main`): `if let Some(res) = mapping.get(str_result.trim())`
issue `<selector> move workspace current`, else do nothing.  `none` means
no `connection.command` call occurs at all. -/
def dispatch_move (mapping : List (String × Entity)) (str_result : String) : Option String :=
  match mapping_get mapping (rust_trim str_result) with
  | some res => some (res.to_select_string ++ " move workspace current")
  | none => none

/-- Outcome of the child's `read_to_string` in `exec_dmenu`: on success the
buffer holds the full output, on an I/O error it holds whatever had been
read before the error. -/
inductive ReadOutcome : Type where
  | ok : String → ReadOutcome
  | err : String → ReadOutcome
deriving Repr, DecidableEq

/-- `fn exec_dmenu(exec, options) -> String`, with the three I/O
interactions abstracted as oracle outcomes: `spawnOk` is whether
`Command::spawn` succeeded (`.unwrap()` panics otherwise), `writeOk` is
whether `write_all` on the child's stdin succeeded (`panic!` otherwise),
and `read` is the outcome of `read_to_string` on the child's stdout —
whose error the source discards with `match ... { _ => () }`, returning
the buffer `s` regardless.  A `none` result models the program aborting
(panic); `some s` is the string handed on to the dispatcher. -/
def exec_dmenu (spawnOk : Bool) (writeOk : Bool) (read : ReadOutcome) : Option String :=
  if !spawnOk then
    none
  else if !writeOk then
    none
  else
    match read with
    | .ok s => some s
    | .err s => some s

/-! Spec-side definitions, written from the words of the specification, to
be compared with the definitions embedded from the source. -/

mutual

/-- Spec side: the depth-first preorder listing of a node and all of its
descendants. -/
def dfsNode : Node → List Node
  | .mk w nm c ns => Node.mk w nm c ns :: dfsList ns

/-- Spec side: the depth-first preorder listing of every node reachable
from a root list. -/
def dfsList : List Node → List Node
  | [] => []
  | n :: rest => dfsNode n ++ dfsList rest

end

/-- Spec side: the filter predicate in the claim's words — a leaf is kept
iff it has a window identifier, has a name that is not in the static name
ignore-list, and either has no class name or its class name is not in the
static class ignore-list. -/
def spec_keep (n : Node) : Bool :=
  n.window.isSome &&
  (match n.name with
   | some nm => decide (nm ∉ IGNORE_WINDOW_NAME)
   | none => false) &&
  (match n.class_name with
   | some c => decide (c ∉ IGNORE_WINDOW_CLASS)
   | none => true)

/-- Spec side: the projection of a surviving leaf to a `Window` entity
with id, name and optional class. -/
def spec_project (n : Node) : Option Window :=
  match n.window, n.name with
  | some w, some nm => some { id := w, name := nm, class_name := n.class_name }
  | _, _ => none

/-- Spec side: a string left-justified to a minimum width, the claim's
description of the class-prefix segment of a window label. -/
def left_justify (s : String) (width : Nat) : String :=
  s ++ spaces (width - s.length)

mutual

/-- `flattenOne` emits exactly the childless nodes of the depth-first
preorder listing of the node, in order. -/
theorem flattenOne_eq_dfs (n : Node) :
    flattenOne n = (dfsNode n).filter (fun m => m.nodes.isEmpty) := by
  cases n with
  | mk w nm c ns =>
    cases hns : ns with
    | nil => simp [flattenOne, dfsNode, dfsList, Node.nodes, List.filter]
    | cons h t =>
      have hrec := flatten_nodes_eq_dfs (h :: t)
      simp [flattenOne, dfsNode, Node.nodes, List.filter_cons, hrec]

/-- `flatten_nodes` emits exactly the childless nodes of the depth-first
preorder listing of the root list, in order. -/
theorem flatten_nodes_eq_dfs (l : List Node) :
    flatten_nodes l = (dfsList l).filter (fun m => m.nodes.isEmpty) := by
  cases l with
  | nil => simp [flatten_nodes, dfsList]
  | cons n rest =>
    have h1 := flattenOne_eq_dfs n
    have h2 := flatten_nodes_eq_dfs rest
    simp [flatten_nodes, dfsList, List.filter_append, h1, h2]

end

/-- The source's filter predicate agrees with the claim's. -/
theorem filter_node_eq_spec_keep (n : Node) : filter_node n = spec_keep n := by
  cases n with
  | mk w nm c ns =>
    cases nm <;> cases c <;>
      simp [filter_node, spec_keep, Node.window, Node.name, Node.class_name,
        List.contains, List.elem_eq_mem]

/-- On a list of nodes that all pass `filter_node`, the `flat_map`
projection succeeds and produces exactly the `spec_project` image. -/
theorem collect_windows_eq_filterMap (l : List Node) (h : ∀ n ∈ l, filter_node n = true) :
    collect_windows l = some (l.filterMap spec_project) := by
  induction l with
  | nil => simp [collect_windows]
  | cons n rest ih =>
    have hn : filter_node n = true := h n (List.mem_cons_self n rest)
    have hrest := ih (fun m hm => h m (List.mem_cons_of_mem n hm))
    obtain ⟨w, hw⟩ : ∃ w, n.window = some w := by
      have : n.window.isSome = true := by
        have := hn
        unfold filter_node at this
        simp only [Bool.and_eq_true] at this
        exact this.1.1
      exact Option.isSome_iff_exists.mp this
    obtain ⟨nm, hnm⟩ : ∃ nm, n.name = some nm := by
      have : ¬ n.name = none := by
        intro hcon
        have := hn
        unfold filter_node at this
        rw [hcon] at this
        simp at this
      cases hname : n.name with
      | none => exact absurd hname this
      | some v => exact ⟨v, rfl⟩
    simp [collect_windows, windows_of_node, spec_project, hw, hnm, hrest,
      List.filterMap_cons]

/-- Claim C3: the flattener-plus-filter pipeline emits exactly the
childless (leaf) nodes in depth-first order — a node with a non-empty
child list is replaced by its flattened descendants and is never itself
emitted — keeps a leaf iff it has a window identifier, a name outside the
name ignore-list, and no class name or one outside the class ignore-list,
and projects the survivors to `Window` entities with id, name and
optional class. -/
theorem C3_flatten_filter_pipeline (nodes : List Node) :
    flatten_nodes nodes = (dfsList nodes).filter (fun m => m.nodes.isEmpty)
    ∧ (∀ n ∈ flatten_nodes nodes, n.nodes = [])
    ∧ (∀ n, filter_node n = spec_keep n)
    ∧ get_windows_names nodes =
        some ((((dfsList nodes).filter (fun m => m.nodes.isEmpty)).filter
          spec_keep).filterMap spec_project) := by
  refine ⟨flatten_nodes_eq_dfs nodes, ?_, filter_node_eq_spec_keep, ?_⟩
  · intro n hn
    rw [flatten_nodes_eq_dfs nodes] at hn
    have := (List.mem_filter.mp hn).2
    exact List.isEmpty_iff.mp (by simpa using this)
  · have hall : ∀ n ∈ (flatten_nodes nodes).filter filter_node, filter_node n = true :=
      fun n hn => (List.mem_filter.mp hn).2
    have := collect_windows_eq_filterMap ((flatten_nodes nodes).filter filter_node) hall
    unfold get_windows_names
    rw [this, flatten_nodes_eq_dfs nodes]
    congr 2
    apply List.filter_congr
    intro n _
    exact filter_node_eq_spec_keep n

/-- `List.foldl max` bounds its start, bounds every member, and is one of
them (or the start). -/
theorem foldl_max_spec (l : List Nat) (b : Nat) :
    b ≤ l.foldl max b
    ∧ (∀ v ∈ l, v ≤ l.foldl max b)
    ∧ (l.foldl max b = b ∨ l.foldl max b ∈ l) := by
  induction l generalizing b with
  | nil => exact ⟨Nat.le_refl b, by simp, Or.inl rfl⟩
  | cons x xs ih =>
    obtain ⟨h1, h2, h3⟩ := ih (max b x)
    simp only [List.foldl_cons]
    refine ⟨Nat.le_trans (Nat.le_max_left b x) h1, ?_, ?_⟩
    · intro v hv
      rcases List.mem_cons.mp hv with rfl | hv
      · exact Nat.le_trans (Nat.le_max_right b v) h1
      · exact h2 v hv
    · rcases h3 with h3 | h3
      · rcases max_choice b x with hm | hm
        · rw [h3, hm]
          exact Or.inl rfl
        · rw [h3, hm]
          exact Or.inr (List.mem_cons_self x xs)
      · exact Or.inr (List.mem_cons_of_mem x h3)

/-- `List.max? = some m` means `m` is a member and an upper bound. -/
theorem max?_spec (l : List Nat) (m : Nat) (h : l.max? = some m) :
    m ∈ l ∧ ∀ v ∈ l, v ≤ m := by
  cases l with
  | nil => simp [List.max?] at h
  | cons x xs =>
    have hm : xs.foldl max x = m := by
      simpa [List.max?] using h
    obtain ⟨h1, h2, h3⟩ := foldl_max_spec xs x
    subst hm
    refine ⟨?_, ?_⟩
    · rcases h3 with h3 | h3
      · rw [h3]
        exact List.mem_cons_self x xs
      · exact List.mem_cons_of_mem x h3
    · intro v hv
      rcases List.mem_cons.mp hv with rfl | hv
      · exact h1
      · exact h2 v hv

/-- The run of spaces has the expected length. -/
theorem spaces_length (n : Nat) : (spaces n).length = n := by
  simp [spaces, String.length]

/-- A string no longer than the width is left-justified to exactly the
width. -/
theorem left_justify_length (s : String) (width : Nat) (h : s.length ≤ width) :
    (left_justify s width).length = width := by
  rw [left_justify, String.length_append, spaces_length]
  omega

/-- `class_len` is the length of the class name with `""` for an absent
one. -/
theorem class_len_eq (w : Window) : class_len w = (w.class_name.getD "").length := by
  cases h : w.class_name <;> simp [class_len, h]

/-- `pad_format` is the left-justified class prefix followed directly by
the window name. -/
theorem pad_format_eq (w : Window) (padding : Nat) :
    w.pad_format padding = left_justify (w.class_name.getD "") padding ++ w.name := rfl

/-- Two windows whose class prefixes fit the shared padding and whose
labels coincide have the same name. -/
theorem pad_format_name_inj (a b : Window) (p : Nat)
    (ha : class_len a ≤ p) (hb : class_len b ≤ p)
    (h : a.pad_format p = b.pad_format p) : a.name = b.name := by
  rw [pad_format_eq, pad_format_eq] at h
  have hdata := congrArg String.data h
  rw [String.data_append, String.data_append] at hdata
  have hla : (left_justify (a.class_name.getD "") p).data.length = p := by
    rw [show (left_justify (a.class_name.getD "") p).data.length
        = (left_justify (a.class_name.getD "") p).length from rfl]
    exact left_justify_length _ p (by rw [← class_len_eq]; exact ha)
  have hlb : (left_justify (b.class_name.getD "") p).data.length = p := by
    rw [show (left_justify (b.class_name.getD "") p).data.length
        = (left_justify (b.class_name.getD "") p).length from rfl]
    exact left_justify_length _ p (by rw [← class_len_eq]; exact hb)
  have := List.append_inj hdata (by rw [hla, hlb])
  exact String.ext this.2

/-- Claim C1, counterexample: on the input `foo "bar baz" qux` the
tokenizer does not return program `foo` with arguments
`["bar baz", "qux"]`. -/
theorem C1_counterexample :
    split_exec_args "foo \"bar baz\" qux" ≠ some ("foo", ["bar baz", "qux"]) := by
  decide

/-- Claim C1, amended: on the input `foo "bar baz" qux` the tokenizer
returns program name `foo` and argument list `["bar baz", ""]` — the
quoted span is one token with no separator splitting inside it and the
first emitted token is the program name, but the separator after the
closing quote emits an empty token and the final token `qux` is dropped,
because the accumulation buffer is not flushed at end of input. -/
theorem C1_tokenize_quoted :
    split_exec_args "foo \"bar baz\" qux" = some ("foo", ["bar baz", ""]) := by
  decide

/-- Claim C2, counterexample: on the input `a\ b c` the tokenizer does not
return program `a b` with arguments `["c"]`. -/
theorem C2_counterexample :
    split_exec_args "a\\ b c" ≠ some ("a b", ["c"]) := by
  decide

/-- Claim C2, amended: a backslash outside quotes causes the immediately
following character to be skipped entirely — neither the backslash nor
the escaped character is stored — and in particular
`tokenize('a\ b c')` returns program name `ab` and no arguments (the
final token `c` is also dropped by the missing end-of-input flush). -/
theorem C2_backslash_skips :
    (∀ (c : Char) (rest : List Char) (args : List String) (buf : String),
      splitLoop ('\\' :: c :: rest) args buf false none = splitLoop rest args buf false none)
    ∧ split_exec_args "a\\ b c" = some ("ab", []) := by
  exact ⟨fun _ _ _ _ => rfl, by decide⟩

/-- Claim C8, counterexample: on the input `x "abc`, whose quoted span is
still open at end of input, the partially accumulated token `abc` is not
emitted. -/
theorem C8_counterexample :
    split_exec_args "x \"abc" ≠ some ("x", ["abc"]) := by
  decide

/-- Claim C8, amended: when input ends while a quoted span is still open
the partially accumulated token is dropped, not emitted — the loop
returns only the completed tokens whatever the final buffer and quote
state — and no error is raised provided at least one token was completed
earlier; when no token was completed, the program-name extraction panics
on the empty token list. -/
theorem C8_open_quote_eof :
    (∀ (args : List String) (buf : String) (skip : Bool) (mc : Option Char),
      splitLoop [] args buf skip mc = args)
    ∧ split_exec_args "x \"abc" = some ("x", [])
    ∧ split_exec_args "\"abc" = none := by
  exact ⟨fun _ _ _ _ => rfl, by decide, by decide⟩

/-- Claim C4: in workspace mode the dispatcher trims the picker output and
issues `workspace <selector>` for a known label, or `workspace <trimmed raw
text>` for an unknown one; concretely, with the single workspace `web`,
picking ` web\n` issues `workspace web` and typing the unknown `newws\n`
issues `workspace newws`. -/
theorem C4_dispatch_workspace (mapping : List (String × Entity)) (raw : String) :
    (∀ e, mapping_get mapping (rust_trim raw) = some e →
      dispatch_workspace mapping raw = "workspace " ++ e.to_select_string)
    ∧ (mapping_get mapping (rust_trim raw) = none →
      dispatch_workspace mapping raw = "workspace " ++ rust_trim raw)
    ∧ dispatch_workspace (workspace_mode_mapping [⟨"web"⟩]) " web\n" = "workspace web"
    ∧ dispatch_workspace (workspace_mode_mapping [⟨"web"⟩]) "newws\n" = "workspace newws" := by
  refine ⟨?_, ?_, by decide, by decide⟩
  · intro e he
    simp [dispatch_workspace, he]
  · intro he
    simp [dispatch_workspace, he]

/-- Claim C5: in move mode the dispatcher issues exactly
`[id="<id>"] move workspace current` for a label mapped to a window, and
no command at all for an unknown label; concretely, with windows
`{id=5, name=Inbox, class=Mail}` and `{id=9, name=Editor, class=Code}`,
picking the second label issues exactly `[id="9"] move workspace
current`. -/
theorem C5_dispatch_move (mapping : List (String × Entity)) (raw : String) :
    (∀ w : Window, mapping_get mapping (rust_trim raw) = some (Entity.window w) →
      dispatch_move mapping raw =
        some (("[id=\"" ++ toString w.id) ++ "\"] move workspace current"))
    ∧ (mapping_get mapping (rust_trim raw) = none → dispatch_move mapping raw = none)
    ∧ (move_mode_mapping [⟨5, "Inbox", some "Mail"⟩, ⟨9, "Editor", some "Code"⟩]).map
        (fun m => dispatch_move m "Code     Editor\n")
        = some (some "[id=\"9\"] move workspace current") := by
  refine ⟨?_, ?_, by decide⟩
  · intro w hw
    simp only [dispatch_move, hw]
    rw [Entity.to_select_string, Window.to_select_string, String.append_assoc]
    rfl
  · intro hw
    simp [dispatch_move, hw]

/-- Claim C6: for a non-empty window list the label builder's width is the
maximum of the present class-name lengths (absent class counted as 0),
the fixed margin 5 is added, and every label is the class name (empty if
absent) left-justified to exactly that width, immediately followed by the
window name with no separator. -/
theorem C6_label_builder (ws : List Window) (h : ws ≠ []) :
    ∃ mx, max_class_name_size ws = some mx
      ∧ mx ∈ ws.map class_len
      ∧ (∀ w ∈ ws, class_len w ≤ mx)
      ∧ ∀ w ∈ ws,
          w.pad_format (mx + 5) = left_justify (w.class_name.getD "") (mx + 5) ++ w.name
          ∧ (left_justify (w.class_name.getD "") (mx + 5)).length = mx + 5 := by
  obtain ⟨mx, hmx⟩ : ∃ mx, max_class_name_size ws = some mx := by
    cases hmax : max_class_name_size ws with
    | none =>
      have : ws.map class_len = [] := by
        rw [max_class_name_size] at hmax
        exact List.max?_eq_none_iff.mp hmax
      exact absurd (List.map_eq_nil_iff.mp this) h
    | some m => exact ⟨m, rfl⟩
  obtain ⟨hmem, hub⟩ := max?_spec (ws.map class_len) mx (by rw [← max_class_name_size]; exact hmx)
  refine ⟨mx, hmx, hmem, fun w hw => hub _ (List.mem_map_of_mem class_len hw), ?_⟩
  intro w hw
  refine ⟨pad_format_eq w (mx + 5), ?_⟩
  apply left_justify_length
  rw [← class_len_eq]
  have := hub _ (List.mem_map_of_mem class_len hw)
  omega

/-- Claim C6, witness: the label builder evaluated on the spec's
two-window example. -/
theorem C6_label_builder_witness :
    ∃ mx, max_class_name_size
        [⟨5, "Inbox", some "Mail"⟩, ⟨9, "Editor", some "Code"⟩] = some mx
      ∧ mx ∈ ([⟨5, "Inbox", some "Mail"⟩, ⟨9, "Editor", some "Code"⟩] : List Window).map class_len
      ∧ (∀ w ∈ ([⟨5, "Inbox", some "Mail"⟩, ⟨9, "Editor", some "Code"⟩] : List Window),
          class_len w ≤ mx)
      ∧ ∀ w ∈ ([⟨5, "Inbox", some "Mail"⟩, ⟨9, "Editor", some "Code"⟩] : List Window),
          w.pad_format (mx + 5) = left_justify (w.class_name.getD "") (mx + 5) ++ w.name
          ∧ (left_justify (w.class_name.getD "") (mx + 5)).length = mx + 5 :=
  C6_label_builder [⟨5, "Inbox", some "Mail"⟩, ⟨9, "Editor", some "Code"⟩] (by decide)

/-- Claim C7: windows with pairwise-distinct display names receive
pairwise-distinct labels under the shared padding width, and in workspace
mode the mapping's labels are exactly the workspace names. -/
theorem C7_label_uniqueness (ws : List Window) (mx : Nat)
    (hmx : max_class_name_size ws = some mx)
    (hnames : (ws.map Window.name).Pairwise (fun a b => a ≠ b)) :
    ((ws.map (fun w => w.pad_format (mx + 5))).Pairwise (fun a b => a ≠ b))
    ∧ ∀ wss : List Workspace,
        (workspace_mode_mapping wss).map Prod.fst = wss.map Workspace.name := by
  constructor
  · rw [List.pairwise_map] at hnames ⊢
    have hub : ∀ w ∈ ws, class_len w ≤ mx := by
      intro w hw
      exact (max?_spec (ws.map class_len) mx (by rw [← max_class_name_size]; exact hmx)).2 _
        (List.mem_map_of_mem class_len hw)
    refine List.Pairwise.imp_of_mem ?_ hnames
    intro a b ha hb hne hEq
    exact hne (pad_format_name_inj a b (mx + 5)
      (Nat.le_trans (hub a ha) (Nat.le_add_right mx 5))
      (Nat.le_trans (hub b hb) (Nat.le_add_right mx 5)) hEq)
  · intro wss
    simp [workspace_mode_mapping]

/-- Claim C7, witness: label uniqueness evaluated on the spec's two-window
example, whose class-length maximum is 4. -/
theorem C7_label_uniqueness_witness :
    ((([⟨5, "Inbox", some "Mail"⟩, ⟨9, "Editor", some "Code"⟩] : List Window).map
        (fun w => w.pad_format (4 + 5))).Pairwise (fun a b => a ≠ b))
    ∧ ∀ wss : List Workspace,
        (workspace_mode_mapping wss).map Prod.fst = wss.map Workspace.name :=
  C7_label_uniqueness [⟨5, "Inbox", some "Mail"⟩, ⟨9, "Editor", some "Code"⟩] 4
    (by decide) (by decide)

/-- Claim C9, counterexample: a read failure on the picker's output pipe
after a successful spawn and write is not fatal — the run continues into
the dispatcher with the partially read buffer. -/
theorem C9_counterexample :
    exec_dmenu true true (ReadOutcome.err "part") = some "part"
    ∧ exec_dmenu true true (ReadOutcome.err "part") ≠ none := by
  exact ⟨rfl, by decide⟩

/-- Claim C9, amended: spawn failure and write failure are each fatal to
the run (the program panics, no retry, no output), but a read failure on
the picker's stdout is silently discarded: the run continues into the
dispatcher with whatever had been read before the error. -/
theorem C9_picker_failures :
    (∀ (w : Bool) (r : ReadOutcome), exec_dmenu false w r = none)
    ∧ (∀ r : ReadOutcome, exec_dmenu true false r = none)
    ∧ (∀ s, exec_dmenu true true (ReadOutcome.ok s) = some s)
    ∧ (∀ s, exec_dmenu true true (ReadOutcome.err s) = some s) := by
  exact ⟨fun _ _ => rfl, fun _ => rfl, fun _ => rfl, fun _ => rfl⟩

/-- Claim C10: `max_class_name_size` panics (`None.unwrap()`) on an empty
window list, so a move-mode run in which no window survives the
flatten-and-filter step aborts before the picker options are ever built;
any non-empty candidate list avoids the panic. -/
theorem C10_empty_windows_panic :
    max_class_name_size [] = none
    ∧ move_mode_options [] = none
    ∧ ∀ ws : List Window, ws ≠ [] → (max_class_name_size ws).isSome = true := by
  refine ⟨rfl, rfl, ?_⟩
  intro ws h
  cases hmax : max_class_name_size ws with
  | none =>
    rw [max_class_name_size] at hmax
    exact absurd (List.map_eq_nil_iff.mp (List.max?_eq_none_iff.mp hmax)) h
  | some m => rfl

end Quickswitch
